import Mathlib

/-!
Verification of the cryptographic layer of the gochat SDK (`wx/crypto.go`).

Bytes are modelled as `Nat` values, byte slices as `List Nat`.  A Go function
that can return an error or abort with a runtime panic is modelled with the
`Outcome` type below, which separates the three possible results.

The AES block primitive and the standard-library CBC block mode are external
collaborators of the repository (Go's `crypto/aes` and `crypto/cipher`); they
are modelled abstractly: the block cipher is a parameter (a pair of functions
on 16-byte blocks), the key-size check and the CBC chaining follow their
documented behaviour.  Everything else (padding, unpadding, the Encrypt and
Decrypt flows, the hand-written ECB adapter, PEM dispatch, Sign and Verify) is
translated directly from the repository source.
-/

namespace GoChat

/-- Result of a Go call: a value, a returned `error`, or a runtime panic. -/
inductive Outcome (α : Type) where
  | ok : α → Outcome α
  | err : String → Outcome α
  | panic : String → Outcome α
deriving DecidableEq, Repr

/-- `PaddingMode` from `wx/crypto.go` (constants ZERO, PKCS5, PKCS7). -/
inductive PaddingMode where
  | ZERO : PaddingMode
  | PKCS5 : PaddingMode
  | PKCS7 : PaddingMode
deriving DecidableEq, Repr

/-- Modelled from the spec: an AES block cipher instance as produced by
`aes.NewCipher` — an encryption and a decryption function on 16-byte blocks.
The repository never looks inside it; theorems that need it assume
`GoodCipher`. -/
structure BlockCipher where
  enc : List Nat → List Nat
  dec : List Nat → List Nat

/-- The contract of a block cipher: both directions map 16-byte blocks to
16-byte blocks and decryption inverts encryption. -/
def GoodCipher (C : BlockCipher) : Prop :=
  (∀ b : List Nat, b.length = 16 → (C.enc b).length = 16) ∧
  (∀ b : List Nat, b.length = 16 → (C.dec b).length = 16) ∧
  (∀ b : List Nat, b.length = 16 → C.dec (C.enc b) = b)

/-- The identity block cipher, used to instantiate witnesses. -/
def idCipher : BlockCipher where
  enc := fun b => b
  dec := fun b => b

/-- Modelled from the spec: `aes.NewCipher` accepts exactly the AES key sizes
16, 24 and 32 bytes and otherwise returns a `KeySizeError`. -/
def aesValidKeySize (n : Nat) : Bool :=
  n == 16 || n == 24 || n == 32

/-- `ZeroPadding` from `wx/crypto.go`: appends
`blockSize - len % blockSize` zero bytes. -/
def ZeroPadding (cipherText : List Nat) (blockSize : Nat) : List Nat :=
  let padding := blockSize - cipherText.length % blockSize
  cipherText ++ List.replicate padding 0

/-- `ZeroUnPadding` from `wx/crypto.go`: `bytes.TrimRightFunc` removing
trailing zero bytes. -/
def ZeroUnPadding (plainText : List Nat) : List Nat :=
  ((plainText.reverse.dropWhile fun r => r == 0)).reverse

/-- `PKCS5Padding` from `wx/crypto.go`: appends `padding` copies of the byte
`padding`, where `padding = blockSize - len % blockSize`, promoted to a full
block when it would be `0` (with Go's `byte` conversion, i.e. mod 256). -/
def PKCS5Padding (cipherText : List Nat) (blockSize : Nat) : List Nat :=
  let padding0 := blockSize - cipherText.length % blockSize
  let padding := if padding0 = 0 then blockSize else padding0
  cipherText ++ List.replicate padding (padding % 256)

/-- `PKCS5Unpadding` from `wx/crypto.go`: reads the last byte as the padding
length, clamps an out-of-range value to `0`, and truncates.  Indexing the
empty slice and a negative slice bound are Go runtime panics. -/
def PKCS5Unpadding (plainText : List Nat) (blockSize : Nat) : Outcome (List Nat) :=
  match plainText.getLast? with
  | none => Outcome.panic "runtime error: index out of range"
  | some last =>
    let unpadding := if last < 1 ∨ last > blockSize then 0 else last
    if plainText.length < unpadding then
      Outcome.panic "runtime error: slice bounds out of range"
    else
      Outcome.ok (plainText.take (plainText.length - unpadding))

/-- The padding switch shared verbatim by `cbccrypto.Encrypt` and
`ecbcrypto.Encrypt`: ZERO and PKCS5 pad to the AES block size
(`block.BlockSize() = 16`), PKCS7 pads to `len(c.key)`. -/
def padPlainText (mode : PaddingMode) (keyLen : Nat) (plainText : List Nat) : List Nat :=
  match mode with
  | PaddingMode.ZERO => ZeroPadding plainText 16
  | PaddingMode.PKCS5 => PKCS5Padding plainText 16
  | PaddingMode.PKCS7 => PKCS5Padding plainText keyLen

/-- XOR of two byte strings, pointwise. -/
def xorBytes (a b : List Nat) : List Nat :=
  List.zipWith (fun x y => x ^^^ y) a b

/-- Modelled from the spec: the standard-library CBC encrypter
(`cipher.NewCBCEncrypter`) chaining `n` 16-byte blocks: each plaintext block
is XORed with the previous ciphertext block (initially the IV) and then
encrypted. -/
def cbcEncBlocks (C : BlockCipher) : Nat → List Nat → List Nat → List Nat
  | 0, _, _ => []
  | Nat.succ n, prev, src =>
    let c := C.enc (xorBytes prev (src.take 16))
    c ++ cbcEncBlocks C n c (src.drop 16)

/-- Modelled from the spec: the standard-library CBC decrypter: each
ciphertext block is decrypted and XORed with the previous ciphertext block
(initially the IV). -/
def cbcDecBlocks (C : BlockCipher) : Nat → List Nat → List Nat → List Nat
  | 0, _, _ => []
  | Nat.succ n, prev, src =>
    let p := xorBytes prev (C.dec (src.take 16))
    p ++ cbcDecBlocks C n (src.take 16) (src.drop 16)

/-- `cbccrypto.Encrypt` from `wx/crypto.go`: key setup, IV length check,
padding per mode, then CBC encryption.  `CryptBlocks` panics when the padded
length is not a multiple of the block size (Go standard library behaviour). -/
def cbcEncrypt (C : BlockCipher) (key iv : List Nat) (mode : PaddingMode)
    (plainText : List Nat) : Outcome (List Nat) :=
  if aesValidKeySize key.length then
    if iv.length = 16 then
      let padded := padPlainText mode key.length plainText
      if padded.length % 16 = 0 then
        Outcome.ok (cbcEncBlocks C (padded.length / 16) iv padded)
      else
        Outcome.panic "crypto/cipher: input not full blocks"
    else
      Outcome.err "IV length must equal block size"
  else
    Outcome.err "crypto/aes: invalid key size"

/-- The unpadding switch shared verbatim by `cbccrypto.Decrypt` and
`ecbcrypto.Decrypt`: ZERO strips trailing zeros, PKCS5 unpads with the AES
block size 16, PKCS7 unpads with `len(c.key)`. -/
def unpadPlainText (mode : PaddingMode) (keyLen : Nat) (plain : List Nat) : Outcome (List Nat) :=
  match mode with
  | PaddingMode.ZERO => Outcome.ok (ZeroUnPadding plain)
  | PaddingMode.PKCS5 => PKCS5Unpadding plain 16
  | PaddingMode.PKCS7 => PKCS5Unpadding plain keyLen

/-- `cbccrypto.Decrypt` from `wx/crypto.go`: key setup, IV length check, CBC
decryption, then unpadding per mode (block size 16 for ZERO and PKCS5,
`len(c.key)` for PKCS7). -/
def cbcDecrypt (C : BlockCipher) (key iv : List Nat) (mode : PaddingMode)
    (cipherText : List Nat) : Outcome (List Nat) :=
  if aesValidKeySize key.length then
    if iv.length = 16 then
      if cipherText.length % 16 = 0 then
        unpadPlainText mode key.length
          (cbcDecBlocks C (cipherText.length / 16) iv cipherText)
      else
        Outcome.panic "crypto/cipher: input not full blocks"
    else
      Outcome.err "IV length must equal block size"
  else
    Outcome.err "crypto/aes: invalid key size"

/-- Applies a block function to `n` consecutive 16-byte blocks independently,
as the loop in the hand-written ECB adapter does. -/
def ecbBlocks (f : List Nat → List Nat) : Nat → List Nat → List Nat
  | 0, _ => []
  | Nat.succ n, src => f (src.take 16) ++ ecbBlocks f n (src.drop 16)

/-- `ecbEncrypter.CryptBlocks` from `wx/crypto.go`: panics when the source
length is not a multiple of the block size or the destination is smaller than
the source; otherwise encrypts each block independently in sequence.
`dstLen` is the length of the destination slice. -/
def ecbEncrypterCryptBlocks (C : BlockCipher) (dstLen : Nat)
    (src : List Nat) : Outcome (List Nat) :=
  if src.length % 16 = 0 then
    if dstLen < src.length then
      Outcome.panic "crypto/cipher: output smaller than input"
    else
      Outcome.ok (ecbBlocks C.enc (src.length / 16) src)
  else
    Outcome.panic "crypto/cipher: input not full blocks"

/-- `ecbDecrypter.CryptBlocks` from `wx/crypto.go`: same checks as the
encrypter, decrypting each block independently in sequence. -/
def ecbDecrypterCryptBlocks (C : BlockCipher) (dstLen : Nat)
    (src : List Nat) : Outcome (List Nat) :=
  if src.length % 16 = 0 then
    if dstLen < src.length then
      Outcome.panic "crypto/cipher: output smaller than input"
    else
      Outcome.ok (ecbBlocks C.dec (src.length / 16) src)
  else
    Outcome.panic "crypto/cipher: input not full blocks"

/-- `ecbcrypto.Encrypt` from `wx/crypto.go`: key setup, padding per mode,
then the ECB adapter on a destination of the padded length. -/
def ecbEncrypt (C : BlockCipher) (key : List Nat) (mode : PaddingMode)
    (plainText : List Nat) : Outcome (List Nat) :=
  if aesValidKeySize key.length then
    let padded := padPlainText mode key.length plainText
    ecbEncrypterCryptBlocks C padded.length padded
  else
    Outcome.err "crypto/aes: invalid key size"

/-- `ecbcrypto.Decrypt` from `wx/crypto.go`: key setup, the ECB adapter on a
destination of the ciphertext length, then unpadding per mode. -/
def ecbDecrypt (C : BlockCipher) (key : List Nat) (mode : PaddingMode)
    (cipherText : List Nat) : Outcome (List Nat) :=
  if aesValidKeySize key.length then
    match ecbDecrypterCryptBlocks C cipherText.length cipherText with
    | Outcome.ok plain => unpadPlainText mode key.length plain
    | Outcome.err e => Outcome.err e
    | Outcome.panic p => Outcome.panic p
  else
    Outcome.err "crypto/aes: invalid key size"

/-- An opaque, already-parsed RSA private key (`*rsa.PrivateKey`); the
repository never inspects its fields. -/
structure RSAKey where
  id : Nat
deriving DecidableEq, Repr

/-- A decoded PEM block: its preamble type and its payload bytes. -/
structure PemBlock where
  type : String
  bytes : List Nat
deriving DecidableEq, Repr

/-- Result of `x509.ParsePKCS8PrivateKey`: an RSA key or a key of some other
type (named by a description string). -/
inductive ParsedKey where
  | rsa : RSAKey → ParsedKey
  | nonRSA : String → ParsedKey
deriving DecidableEq, Repr

/-- Modelled from the spec: the external PEM and x509 parsers used by
`NewPrivateKeyFromPemBlock` (`pem.Decode`, `x509.ParsePKCS1PrivateKey`,
`x509.ParsePKCS8PrivateKey`).  `ParsePKCS1PrivateKey` yields an RSA key or an
error; `ParsePKCS8PrivateKey` may yield a non-RSA key. -/
structure PemEnv where
  pemDecode : List Nat → Option PemBlock
  parsePKCS1 : List Nat → Except String RSAKey
  parsePKCS8 : List Nat → Except String ParsedKey

/-- `NewPrivateKeyFromPemBlock` from `wx/crypto.go`: decode the PEM block
(`nil` decode result returns the error "no PEM data is found"), dispatch on
the preamble type ("RSA PRIVATE KEY" parses PKCS#1, "PRIVATE KEY" parses
PKCS#8), propagate parse errors, and finally perform the unchecked type
assertion `pk.(*rsa.PrivateKey)` — which is a runtime panic when the parsed
key is not RSA, or when the preamble matched neither case (pk stays nil). -/
def NewPrivateKeyFromPemBlock (env : PemEnv) (pemBlock : List Nat) : Outcome RSAKey :=
  match env.pemDecode pemBlock with
  | none => Outcome.err "no PEM data is found"
  | some block =>
    if block.type = "RSA PRIVATE KEY" then
      match env.parsePKCS1 block.bytes with
      | Except.error e => Outcome.err e
      | Except.ok k => Outcome.ok k
    else if block.type = "PRIVATE KEY" then
      match env.parsePKCS8 block.bytes with
      | Except.error e => Outcome.err e
      | Except.ok (ParsedKey.rsa k) => Outcome.ok k
      | Except.ok (ParsedKey.nonRSA _) =>
        Outcome.panic "interface conversion: interface is not *rsa.PrivateKey"
    else
      Outcome.panic "interface conversion: interface is nil, not *rsa.PrivateKey"

/-- A digest algorithm as seen through `crypto.Hash`: whether it is linked
into the runtime (`hash.Available()`), its display name, and the digest it
computes (`h.Write(data); h.Sum(nil)`). -/
structure HashAlg where
  available : Bool
  name : String
  digest : List Nat → List Nat

/-- Modelled from the spec: the external RSA PKCS#1 v1.5 primitives
(`rsa.SignPKCS1v15`, which signs a digest or fails, and `rsa.VerifyPKCS1v15`,
which reports whether a signature matches a digest). -/
structure RSAEnv where
  signPKCS1v15 : RSAKey → List Nat → Except String (List Nat)
  verifyPKCS1v15 : RSAKey → List Nat → List Nat → Bool

/-- `PrivateKey.Sign` from `wx/crypto.go`: reject an unavailable digest with
an error, otherwise hash the data and sign the digest with PKCS#1 v1.5. -/
def privateKeySign (env : RSAEnv) (pk : RSAKey) (hash : HashAlg)
    (data : List Nat) : Outcome (List Nat) :=
  if hash.available then
    match env.signPKCS1v15 pk (hash.digest data) with
    | Except.error e => Outcome.err e
    | Except.ok sig => Outcome.ok sig
  else
    Outcome.err ("crypto: requested hash function (" ++ hash.name ++ ") is unavailable")

/-- `PublicKey.Verify` from `wx/crypto.go`: reject an unavailable digest with
an error, otherwise hash the data and verify the signature against the
digest; a mismatch is `rsa.ErrVerification`. -/
def publicKeyVerify (env : RSAEnv) (pk : RSAKey) (hash : HashAlg)
    (data signature : List Nat) : Outcome Unit :=
  if hash.available then
    if env.verifyPKCS1v15 pk (hash.digest data) signature then
      Outcome.ok ()
    else
      Outcome.err "crypto/rsa: verification error"
  else
    Outcome.err ("crypto: requested hash function (" ++ hash.name ++ ") is unavailable")

/-! ### Helper lemmas -/

theorem goodCipher_id : GoodCipher idCipher :=
  ⟨fun _ h => h, fun _ h => h, fun _ _ => rfl⟩

theorem xorBytes_length (a b : List Nat) :
    (xorBytes a b).length = min a.length b.length :=
  List.length_zipWith _ _ _

theorem xorBytes_cancel (a : List Nat) :
    ∀ b : List Nat, a.length = b.length → xorBytes a (xorBytes a b) = b := by
  induction a with
  | nil =>
    intro b hb
    cases b with
    | nil => rfl
    | cons y t => simp at hb
  | cons x s ih =>
    intro b hb
    cases b with
    | nil => simp at hb
    | cons y t =>
      simp only [List.length_cons, Nat.add_right_cancel_iff] at hb
      simp only [xorBytes, List.zipWith_cons_cons]
      rw [← Nat.xor_assoc, Nat.xor_self, Nat.zero_xor]
      exact congrArg (y :: ·) (ih t hb)

theorem PKCS5Padding_eq (data : List Nat) (b : Nat) (hb : 0 < b) (hb2 : b ≤ 255) :
    PKCS5Padding data b =
      data ++ List.replicate (b - data.length % b) (b - data.length % b) := by
  have hlt : data.length % b < b := Nat.mod_lt _ hb
  have hne : ¬ (b - data.length % b = 0) := by omega
  have h256 : (b - data.length % b) % 256 = b - data.length % b :=
    Nat.mod_eq_of_lt (by omega)
  unfold PKCS5Padding
  simp only []
  rw [if_neg hne, h256]

theorem PKCS5Padding_length (data : List Nat) (b : Nat) (hb : 0 < b) :
    (PKCS5Padding data b).length = data.length + (b - data.length % b) := by
  have hlt : data.length % b < b := Nat.mod_lt _ hb
  have hne : ¬ (b - data.length % b = 0) := by omega
  unfold PKCS5Padding
  simp only []
  rw [if_neg hne]
  simp [List.length_append, List.length_replicate]

theorem PKCS5Padding_dvd (data : List Nat) (b : Nat) (hb : 0 < b) :
    b ∣ (PKCS5Padding data b).length := by
  rw [PKCS5Padding_length data b hb]
  have h1 : data.length % b < b := Nat.mod_lt _ hb
  have h2 : b * (data.length / b) + data.length % b = data.length :=
    Nat.div_add_mod data.length b
  have h3 : b * (data.length / b + 1) = b * (data.length / b) + b := by
    rw [Nat.mul_add, Nat.mul_one]
  exact ⟨data.length / b + 1, by omega⟩

theorem ZeroPadding_length (data : List Nat) (b : Nat) :
    (ZeroPadding data b).length = data.length + (b - data.length % b) := by
  unfold ZeroPadding
  simp [List.length_append, List.length_replicate]

theorem ZeroPadding_dvd (data : List Nat) (b : Nat) (hb : 0 < b) :
    b ∣ (ZeroPadding data b).length := by
  rw [ZeroPadding_length data b]
  have h1 : data.length % b < b := Nat.mod_lt _ hb
  have h2 : b * (data.length / b) + data.length % b = data.length :=
    Nat.div_add_mod data.length b
  have h3 : b * (data.length / b + 1) = b * (data.length / b) + b := by
    rw [Nat.mul_add, Nat.mul_one]
  exact ⟨data.length / b + 1, by omega⟩

theorem aesValidKeySize_iff (n : Nat) :
    aesValidKeySize n = true ↔ (n = 16 ∨ n = 24 ∨ n = 32) := by
  simp [aesValidKeySize, Bool.or_eq_true, beq_iff_eq, or_assoc]

theorem getLast?_append_replicate_succ (l : List Nat) (k v : Nat) :
    (l ++ List.replicate (k + 1) v).getLast? = some v := by
  rw [List.replicate_succ', ← List.append_assoc, List.getLast?_concat]

theorem PKCS5Unpadding_PKCS5Padding (data : List Nat) (b : Nat)
    (hb : 0 < b) (hb2 : b ≤ 255) :
    PKCS5Unpadding (PKCS5Padding data b) b = Outcome.ok data := by
  have hlt : data.length % b < b := Nat.mod_lt _ hb
  obtain ⟨q, hq⟩ : ∃ q, b - data.length % b = q + 1 :=
    ⟨b - data.length % b - 1, by omega⟩
  rw [PKCS5Padding_eq data b hb hb2]
  have hlast : (data ++ List.replicate (b - data.length % b) (b - data.length % b)).getLast?
      = some (b - data.length % b) := by
    rw [hq]
    exact getLast?_append_replicate_succ data q (q + 1)
  have hlen : (data ++ List.replicate (b - data.length % b) (b - data.length % b)).length
      = data.length + (b - data.length % b) := by
    simp [List.length_append, List.length_replicate]
  simp only [PKCS5Unpadding, hlast]
  rw [if_neg (by omega : ¬ (b - data.length % b < 1 ∨ b - data.length % b > b))]
  rw [if_neg (by rw [hlen]; omega)]
  rw [hlen, Nat.add_sub_cancel]
  exact congrArg Outcome.ok (List.take_left data _)

theorem PKCS5Unpadding_out_of_range (buf : List Nat) (b last : Nat)
    (h : buf.getLast? = some last) (hout : last < 1 ∨ last > b) :
    PKCS5Unpadding buf b = Outcome.ok buf := by
  simp only [PKCS5Unpadding, h]
  rw [if_pos hout]
  rw [if_neg (by omega)]
  rw [Nat.sub_zero]
  exact congrArg Outcome.ok (List.take_length buf)

theorem PKCS5Unpadding_aligned_ok (buf : List Nat) (b : Nat)
    (hne : buf ≠ []) (hb : 0 < b) (hdvd : b ∣ buf.length) :
    ∃ r, PKCS5Unpadding buf b = Outcome.ok r := by
  obtain ⟨last, hlast⟩ : ∃ a, buf.getLast? = some a := by
    cases buf with
    | nil => exact absurd rfl hne
    | cons x t => exact ⟨_, rfl⟩
  by_cases hout : last < 1 ∨ last > b
  · exact ⟨buf, PKCS5Unpadding_out_of_range buf b last hlast hout⟩
  · have hpos : 0 < buf.length := List.length_pos.mpr hne
    have hble : b ≤ buf.length := Nat.le_of_dvd hpos hdvd
    refine ⟨buf.take (buf.length - last), ?_⟩
    simp only [PKCS5Unpadding, hlast]
    rw [if_neg hout]
    rw [if_neg (by omega)]

theorem dropWhile_zero_replicate_append (k : Nat) (l : List Nat) :
    List.dropWhile (fun r => r == 0) (List.replicate k 0 ++ l)
      = List.dropWhile (fun r => r == 0) l := by
  induction k with
  | zero => simp
  | succ n ih => simpa [List.replicate_succ, List.dropWhile_cons] using ih

theorem ZeroUnPadding_append_zeros (data : List Nat) (k : Nat) :
    ZeroUnPadding (data ++ List.replicate k 0) = ZeroUnPadding data := by
  unfold ZeroUnPadding
  rw [List.reverse_append, List.reverse_replicate, dropWhile_zero_replicate_append]

theorem head?_dropWhile_false (p : Nat → Bool) (l : List Nat) (x : Nat)
    (h : (l.dropWhile p).head? = some x) : p x = false := by
  induction l with
  | nil => simp [List.dropWhile] at h
  | cons a t ih =>
    rw [List.dropWhile_cons] at h
    by_cases hp : p a
    · simp [hp] at h
      exact ih h
    · simp [hp] at h
      subst h
      simpa using hp

theorem getLast?_reverse_eq_head? (m : List Nat) : m.reverse.getLast? = m.head? := by
  rw [← List.head?_reverse m.reverse, List.reverse_reverse]

theorem ZeroUnPadding_getLast?_ne_zero (data : List Nat) :
    (ZeroUnPadding data).getLast? ≠ some 0 := by
  unfold ZeroUnPadding
  rw [getLast?_reverse_eq_head?]
  cases hm : (data.reverse.dropWhile fun r => r == 0).head? with
  | none => simp
  | some x =>
    have hx : (x == 0) = false :=
      head?_dropWhile_false (fun r => r == 0) data.reverse x hm
    have : x ≠ 0 := by simpa using hx
    simp [this]

theorem ZeroUnPadding_of_getLast?_ne_zero (data : List Nat)
    (h : data.getLast? ≠ some 0) : ZeroUnPadding data = data := by
  unfold ZeroUnPadding
  cases hrev : data.reverse with
  | nil =>
    have : data = [] := by
      have := congrArg List.reverse hrev
      simpa using this
    simp [this, hrev]
  | cons a t =>
    have ha : a ≠ 0 := by
      intro h0
      apply h
      rw [← List.head?_reverse data, hrev, h0]
      rfl
    rw [List.dropWhile_cons, if_neg (by simpa using ha)]
    rw [← hrev, List.reverse_reverse]

theorem ZeroUnPadding_suffix (data : List Nat) :
    ∃ k, data = ZeroUnPadding data ++ List.replicate k 0 := by
  refine ⟨(data.reverse.takeWhile fun r => r == 0).length, ?_⟩
  have hall : ∀ x ∈ data.reverse.takeWhile fun r => r == 0, x = 0 := by
    intro x hx
    have := List.mem_takeWhile_imp hx
    simpa using this
  have hrepl : (data.reverse.takeWhile fun r => r == 0)
      = List.replicate (data.reverse.takeWhile fun r => r == 0).length 0 :=
    List.eq_replicate_of_mem hall
  have hsplit : (data.reverse.takeWhile fun r => r == 0)
      ++ (data.reverse.dropWhile fun r => r == 0) = data.reverse :=
    List.takeWhile_append_dropWhile _ _
  have := congrArg List.reverse hsplit
  rw [List.reverse_append] at this
  unfold ZeroUnPadding
  conv_lhs => rw [← List.reverse_reverse data, ← hsplit]
  rw [List.reverse_append, hrepl, List.reverse_replicate]
  simp [List.length_replicate]

theorem ecbBlocks_length (f : List Nat → List Nat)
    (hf : ∀ b : List Nat, b.length = 16 → (f b).length = 16) :
    ∀ (n : Nat) (src : List Nat), 16 * n ≤ src.length →
      (ecbBlocks f n src).length = 16 * n := by
  intro n
  induction n with
  | zero => intro src _; simp [ecbBlocks]
  | succ m ih =>
    intro src hlen
    have h16 : 16 ≤ src.length := by
      have : 16 * 1 ≤ 16 * (m + 1) := by omega
      omega
    have htake : (src.take 16).length = 16 := by
      rw [List.length_take]
      omega
    have hdrop : 16 * m ≤ (src.drop 16).length := by
      rw [List.length_drop]
      omega
    simp only [ecbBlocks, List.length_append, hf _ htake, ih _ hdrop]
    omega

theorem ecbBlocks_roundtrip (C : BlockCipher) (hC : GoodCipher C) :
    ∀ (n : Nat) (src : List Nat), src.length = 16 * n →
      ecbBlocks C.dec n (ecbBlocks C.enc n src) = src := by
  intro n
  induction n with
  | zero =>
    intro src hlen
    have : src = [] := List.length_eq_zero.mp (by omega)
    simp [ecbBlocks, this]
  | succ m ih =>
    intro src hlen
    have htake : (src.take 16).length = 16 := by
      rw [List.length_take]
      omega
    have hdrop : (src.drop 16).length = 16 * m := by
      rw [List.length_drop]
      omega
    have hclen : (C.enc (src.take 16)).length = 16 := hC.1 _ htake
    simp only [ecbBlocks]
    rw [List.take_left' hclen, List.drop_left' hclen]
    rw [hC.2.2 _ htake, ih _ hdrop]
    exact List.take_append_drop 16 src

theorem cbcEncBlocks_length (C : BlockCipher) (hC : GoodCipher C) :
    ∀ (n : Nat) (prev src : List Nat), prev.length = 16 → 16 * n ≤ src.length →
      (cbcEncBlocks C n prev src).length = 16 * n := by
  intro n
  induction n with
  | zero => intro prev src _ _; simp [cbcEncBlocks]
  | succ m ih =>
    intro prev src hprev hlen
    have h16 : 16 ≤ src.length := by omega
    have htake : (src.take 16).length = 16 := by
      rw [List.length_take]
      omega
    have hxor : (xorBytes prev (src.take 16)).length = 16 := by
      rw [xorBytes_length, hprev, htake]
      exact min_self 16
    have hclen : (C.enc (xorBytes prev (src.take 16))).length = 16 := hC.1 _ hxor
    have hdrop : 16 * m ≤ (src.drop 16).length := by
      rw [List.length_drop]
      omega
    simp only [cbcEncBlocks, List.length_append, hclen, ih _ _ hclen hdrop]
    omega

theorem cbcBlocks_roundtrip (C : BlockCipher) (hC : GoodCipher C) :
    ∀ (n : Nat) (prev src : List Nat), prev.length = 16 → src.length = 16 * n →
      cbcDecBlocks C n prev (cbcEncBlocks C n prev src) = src := by
  intro n
  induction n with
  | zero =>
    intro prev src _ hlen
    have : src = [] := List.length_eq_zero.mp (by omega)
    simp [cbcEncBlocks, cbcDecBlocks, this]
  | succ m ih =>
    intro prev src hprev hlen
    have htake : (src.take 16).length = 16 := by
      rw [List.length_take]
      omega
    have hdrop : (src.drop 16).length = 16 * m := by
      rw [List.length_drop]
      omega
    have hxor : (xorBytes prev (src.take 16)).length = 16 := by
      rw [xorBytes_length, hprev, htake]
      exact min_self 16
    have hclen : (C.enc (xorBytes prev (src.take 16))).length = 16 := hC.1 _ hxor
    simp only [cbcEncBlocks, cbcDecBlocks]
    rw [List.take_left' hclen, List.drop_left' hclen]
    rw [hC.2.2 _ hxor]
    rw [xorBytes_cancel prev (src.take 16) (by omega)]
    rw [ih _ _ hclen hdrop]
    exact List.take_append_drop 16 src

theorem padPlainText_mod16 (mode : PaddingMode) (kLen : Nat) (pt : List Nat)
    (hk : kLen = 16 ∨ kLen = 24 ∨ kLen = 32)
    (h7 : mode = PaddingMode.PKCS7 → kLen ≠ 24) :
    (padPlainText mode kLen pt).length % 16 = 0 := by
  cases mode with
  | ZERO =>
    obtain ⟨c, hc⟩ := ZeroPadding_dvd pt 16 (by omega)
    simp only [padPlainText]
    omega
  | PKCS5 =>
    obtain ⟨c, hc⟩ := PKCS5Padding_dvd pt 16 (by omega)
    simp only [padPlainText]
    omega
  | PKCS7 =>
    have hk2 : kLen = 16 ∨ kLen = 32 := by
      have := h7 rfl
      omega
    simp only [padPlainText]
    rcases hk2 with h | h
    · subst h
      obtain ⟨c, hc⟩ := PKCS5Padding_dvd pt 16 (by omega)
      omega
    · subst h
      obtain ⟨c, hc⟩ := PKCS5Padding_dvd pt 32 (by omega)
      omega

theorem unpadPlainText_padPlainText (mode : PaddingMode) (kLen : Nat) (pt : List Nat)
    (hk : kLen = 16 ∨ kLen = 24 ∨ kLen = 32)
    (hzero : mode = PaddingMode.ZERO → pt.getLast? ≠ some 0) :
    unpadPlainText mode kLen (padPlainText mode kLen pt) = Outcome.ok pt := by
  cases mode with
  | ZERO =>
    simp only [unpadPlainText, padPlainText, ZeroPadding]
    rw [ZeroUnPadding_append_zeros, ZeroUnPadding_of_getLast?_ne_zero pt (hzero rfl)]
  | PKCS5 =>
    simp only [unpadPlainText, padPlainText]
    exact PKCS5Unpadding_PKCS5Padding pt 16 (by omega) (by omega)
  | PKCS7 =>
    simp only [unpadPlainText, padPlainText]
    exact PKCS5Unpadding_PKCS5Padding pt kLen (by omega) (by omega)

theorem cbcEncrypt_ok_of_aligned (C : BlockCipher) (key iv pt : List Nat)
    (mode : PaddingMode) (hkey : aesValidKeySize key.length = true)
    (hiv : iv.length = 16)
    (halign : (padPlainText mode key.length pt).length % 16 = 0) :
    cbcEncrypt C key iv mode pt =
      Outcome.ok (cbcEncBlocks C ((padPlainText mode key.length pt).length / 16)
        iv (padPlainText mode key.length pt)) := by
  simp only [cbcEncrypt, hkey, if_true, hiv, if_pos, halign]

theorem ecbEncrypt_ok_of_aligned (C : BlockCipher) (key pt : List Nat)
    (mode : PaddingMode) (hkey : aesValidKeySize key.length = true)
    (halign : (padPlainText mode key.length pt).length % 16 = 0) :
    ecbEncrypt C key mode pt =
      Outcome.ok (ecbBlocks C.enc ((padPlainText mode key.length pt).length / 16)
        (padPlainText mode key.length pt)) := by
  simp only [ecbEncrypt, hkey, if_true, ecbEncrypterCryptBlocks, halign, if_pos]
  rw [if_neg (by omega)]

theorem cbcDecrypt_cbcEncrypt (C : BlockCipher) (hC : GoodCipher C)
    (key iv pt ct : List Nat) (mode : PaddingMode)
    (hkey : aesValidKeySize key.length = true) (hiv : iv.length = 16)
    (halign : (padPlainText mode key.length pt).length % 16 = 0)
    (hct : cbcEncrypt C key iv mode pt = Outcome.ok ct) :
    cbcDecrypt C key iv mode ct =
      unpadPlainText mode key.length (padPlainText mode key.length pt) := by
  have henc := cbcEncrypt_ok_of_aligned C key iv pt mode hkey hiv halign
  rw [henc] at hct
  have hcteq : ct = cbcEncBlocks C ((padPlainText mode key.length pt).length / 16)
      iv (padPlainText mode key.length pt) := by
    injection hct.symm
  have hdiv : 16 * ((padPlainText mode key.length pt).length / 16)
      = (padPlainText mode key.length pt).length := by
    have := Nat.div_add_mod (padPlainText mode key.length pt).length 16
    omega
  have hElen : (cbcEncBlocks C ((padPlainText mode key.length pt).length / 16)
      iv (padPlainText mode key.length pt)).length
      = (padPlainText mode key.length pt).length := by
    rw [cbcEncBlocks_length C hC _ iv _ hiv (by omega)]
    exact hdiv
  have hctlen : ct.length = (padPlainText mode key.length pt).length := by
    rw [hcteq]
    exact hElen
  have hmod : ct.length % 16 = 0 := by omega
  simp only [cbcDecrypt, hkey, if_true, hiv, if_pos, hmod]
  rw [hcteq, hElen]
  rw [cbcBlocks_roundtrip C hC _ iv _ hiv (by omega)]

theorem ecbDecrypt_ecbEncrypt (C : BlockCipher) (hC : GoodCipher C)
    (key pt ct : List Nat) (mode : PaddingMode)
    (hkey : aesValidKeySize key.length = true)
    (halign : (padPlainText mode key.length pt).length % 16 = 0)
    (hct : ecbEncrypt C key mode pt = Outcome.ok ct) :
    ecbDecrypt C key mode ct =
      unpadPlainText mode key.length (padPlainText mode key.length pt) := by
  have henc := ecbEncrypt_ok_of_aligned C key pt mode hkey halign
  rw [henc] at hct
  have hcteq : ct = ecbBlocks C.enc ((padPlainText mode key.length pt).length / 16)
      (padPlainText mode key.length pt) := by
    injection hct.symm
  have hdiv : 16 * ((padPlainText mode key.length pt).length / 16)
      = (padPlainText mode key.length pt).length := by
    have := Nat.div_add_mod (padPlainText mode key.length pt).length 16
    omega
  have hElen : (ecbBlocks C.enc ((padPlainText mode key.length pt).length / 16)
      (padPlainText mode key.length pt)).length
      = (padPlainText mode key.length pt).length := by
    rw [ecbBlocks_length C.enc hC.1 _ _ (by omega)]
    exact hdiv
  have hctlen : ct.length = (padPlainText mode key.length pt).length := by
    rw [hcteq]
    exact hElen
  have hmod : ct.length % 16 = 0 := by omega
  have hdecB : ecbDecrypterCryptBlocks C ct.length ct
      = Outcome.ok (ecbBlocks C.dec (ct.length / 16) ct) := by
    simp only [ecbDecrypterCryptBlocks, hmod, if_pos]
    rw [if_neg (by omega)]
  simp only [ecbDecrypt, hkey, if_true, hdecB]
  rw [hcteq, hElen]
  rw [ecbBlocks_roundtrip C hC _ _ hdiv.symm]

theorem ecbBlocks_block (f : List Nat → List Nat)
    (hf : ∀ b : List Nat, b.length = 16 → (f b).length = 16) :
    ∀ (n : Nat) (src : List Nat) (i : Nat), src.length = 16 * n → i < n →
      ((ecbBlocks f n src).drop (16 * i)).take 16 = f ((src.drop (16 * i)).take 16) := by
  intro n
  induction n with
  | zero => intro src i _ hi; exact absurd hi (by omega)
  | succ m ih =>
    intro src i hlen hi
    have htake : (src.take 16).length = 16 := by
      rw [List.length_take]
      omega
    have hflen : (f (src.take 16)).length = 16 := hf _ htake
    cases i with
    | zero =>
      simp only [ecbBlocks, Nat.mul_zero, List.drop_zero]
      rw [List.take_left' hflen]
    | succ j =>
      have hdrop : (src.drop 16).length = 16 * m := by
        rw [List.length_drop]
        omega
      have h16 : 16 * (j + 1) = 16 + 16 * j := by ring
      simp only [ecbBlocks]
      have hL : List.drop (16 + 16 * j)
          (f (List.take 16 src) ++ ecbBlocks f m (List.drop 16 src))
          = List.drop (16 * j) (ecbBlocks f m (List.drop 16 src)) := by
        rw [show (16 : Nat) + 16 * j = (f (List.take 16 src)).length + 16 * j by
          rw [hflen]]
        exact List.drop_append _
      have hR : List.drop (16 + 16 * j) src
          = List.drop (16 * j) (List.drop 16 src) := by
        rw [List.drop_drop, Nat.add_comm]
      rw [h16, hL, hR]
      exact ih (src.drop 16) j hdrop (by omega)

theorem cbcEncrypt_ok_length (C : BlockCipher) (hC : GoodCipher C)
    (key iv pt ct : List Nat) (mode : PaddingMode)
    (hkey : aesValidKeySize key.length = true) (hiv : iv.length = 16)
    (h : cbcEncrypt C key iv mode pt = Outcome.ok ct) :
    ct.length = (padPlainText mode key.length pt).length := by
  by_cases halign : (padPlainText mode key.length pt).length % 16 = 0
  · rw [cbcEncrypt_ok_of_aligned C key iv pt mode hkey hiv halign] at h
    have hcteq : ct = cbcEncBlocks C ((padPlainText mode key.length pt).length / 16)
        iv (padPlainText mode key.length pt) := by
      injection h.symm
    have hdiv : 16 * ((padPlainText mode key.length pt).length / 16)
        = (padPlainText mode key.length pt).length := by
      have := Nat.div_add_mod (padPlainText mode key.length pt).length 16
      omega
    rw [hcteq, cbcEncBlocks_length C hC _ iv _ hiv (by omega)]
    exact hdiv
  · exfalso
    simp only [cbcEncrypt, hkey, if_true, hiv, if_pos] at h
    rw [if_neg halign] at h
    exact Outcome.noConfusion h

theorem ecbEncrypt_ok_length (C : BlockCipher) (hC : GoodCipher C)
    (key pt ct : List Nat) (mode : PaddingMode)
    (hkey : aesValidKeySize key.length = true)
    (h : ecbEncrypt C key mode pt = Outcome.ok ct) :
    ct.length = (padPlainText mode key.length pt).length := by
  by_cases halign : (padPlainText mode key.length pt).length % 16 = 0
  · rw [ecbEncrypt_ok_of_aligned C key pt mode hkey halign] at h
    have hcteq : ct = ecbBlocks C.enc ((padPlainText mode key.length pt).length / 16)
        (padPlainText mode key.length pt) := by
      injection h.symm
    have hdiv : 16 * ((padPlainText mode key.length pt).length / 16)
        = (padPlainText mode key.length pt).length := by
      have := Nat.div_add_mod (padPlainText mode key.length pt).length 16
      omega
    rw [hcteq, ecbBlocks_length C.enc hC.1 _ _ (by omega)]
    exact hdiv
  · exfalso
    simp only [ecbEncrypt, hkey, if_true, ecbEncrypterCryptBlocks] at h
    rw [if_neg halign] at h
    exact Outcome.noConfusion h

/-! ### Claims -/

/-- C3: for every non-empty buffer whose last byte `N` satisfies `N < 1` or
`N > blockSize`, PKCS5/PKCS7 unpadding returns the input unchanged instead of
failing; and for every input whose length is already a multiple of the block
size, PKCS5/PKCS7 padding appends exactly one full block of bytes, each
holding the value `blockSize` (never zero bytes of padding).  Block sizes are
the ones the program uses (16, 24 or 32). -/
theorem claim_C3_unpad_fallback_pad_full_block (buf data : List Nat) (b last : Nat)
    (hlast : buf.getLast? = some last)
    (hout : last < 1 ∨ last > b)
    (hb : b = 16 ∨ b = 24 ∨ b = 32)
    (haligned : b ∣ data.length) :
    PKCS5Unpadding buf b = Outcome.ok buf
    ∧ PKCS5Padding data b = data ++ List.replicate b b := by
  constructor
  · exact PKCS5Unpadding_out_of_range buf b last hlast hout
  · have hmod : data.length % b = 0 := by
      obtain ⟨c, hc⟩ := haligned
      rcases hb with h | h | h <;> subst h <;> omega
    rw [PKCS5Padding_eq data b (by omega) (by omega), hmod, Nat.sub_zero]

/-- Witness for C3 at a concrete input: the buffer `[0]` has last byte `0 < 1`
and is returned unchanged by unpadding with block size 16; the empty (hence
16-aligned) input is padded with one full block of the byte 16. -/
theorem claim_C3_witness :
    PKCS5Unpadding [0] 16 = Outcome.ok [0]
    ∧ PKCS5Padding [] 16 = [] ++ List.replicate 16 16 :=
  claim_C3_unpad_fallback_pad_full_block [0] [] 16 0 (by decide) (by decide)
    (by decide) (by decide)

/-- C4: Zero padding appends `blockSize - (len mod blockSize)` zero bytes (a
full block when the input is aligned), and Zero unpadding strips all trailing
zero bytes — including legitimate trailing zeros of the plaintext: appending
zeros to any buffer does not change its unpadded form, the unpadded form
never ends in a zero byte, and only zero bytes are removed. -/
theorem claim_C4_zero_padding (data : List Nat) (b k : Nat) (hb : 0 < b) :
    (ZeroPadding data b).length = data.length + (b - data.length % b)
    ∧ b ∣ (ZeroPadding data b).length
    ∧ (data.length % b = 0 → ZeroPadding data b = data ++ List.replicate b 0)
    ∧ ZeroUnPadding (data ++ List.replicate k 0) = ZeroUnPadding data
    ∧ (ZeroUnPadding data).getLast? ≠ some 0
    ∧ (∃ j, data = ZeroUnPadding data ++ List.replicate j 0) := by
  refine ⟨ZeroPadding_length data b, ZeroPadding_dvd data b hb, ?_,
    ZeroUnPadding_append_zeros data k, ZeroUnPadding_getLast?_ne_zero data,
    ZeroUnPadding_suffix data⟩
  intro h0
  unfold ZeroPadding
  rw [h0, Nat.sub_zero]

/-- Witness for C4 at a concrete input: data `[1, 0]`, block size 16,
appending two zeros. -/
theorem claim_C4_witness :
    (ZeroPadding [1, 0] 16).length = 2 + (16 - 2 % 16)
    ∧ 16 ∣ (ZeroPadding [1, 0] 16).length
    ∧ ((2 : Nat) % 16 = 0 → ZeroPadding [1, 0] 16 = [1, 0] ++ List.replicate 16 0)
    ∧ ZeroUnPadding ([1, 0] ++ List.replicate 2 0) = ZeroUnPadding [1, 0]
    ∧ (ZeroUnPadding [1, 0]).getLast? ≠ some 0
    ∧ (∃ j, [1, 0] = ZeroUnPadding [1, 0] ++ List.replicate j 0) :=
  claim_C4_zero_padding [1, 0] 16 2 (by decide)

/-- C9: Decrypt in PKCS5 or PKCS7 mode on an empty ciphertext panics (the
unpadding step indexes the last byte of the empty buffer), in both the CBC
and the ECB variant; every non-empty buffer whose length is a multiple of the
unpadding block size is unpadded without panicking. -/
theorem claim_C9_empty_ciphertext_panics (C : BlockCipher) (key iv buf : List Nat) (b : Nat)
    (hkey : aesValidKeySize key.length = true) (hiv : iv.length = 16)
    (hne : buf ≠ []) (hb : 0 < b) (hdvd : b ∣ buf.length) :
    cbcDecrypt C key iv PaddingMode.PKCS5 [] = Outcome.panic "runtime error: index out of range"
    ∧ cbcDecrypt C key iv PaddingMode.PKCS7 [] = Outcome.panic "runtime error: index out of range"
    ∧ ecbDecrypt C key PaddingMode.PKCS5 [] = Outcome.panic "runtime error: index out of range"
    ∧ ecbDecrypt C key PaddingMode.PKCS7 [] = Outcome.panic "runtime error: index out of range"
    ∧ ∃ r, PKCS5Unpadding buf b = Outcome.ok r := by
  refine ⟨?_, ?_, ?_, ?_, PKCS5Unpadding_aligned_ok buf b hne hb hdvd⟩ <;>
    simp [cbcDecrypt, ecbDecrypt, hkey, hiv, cbcDecBlocks,
      ecbDecrypterCryptBlocks, ecbBlocks, unpadPlainText, PKCS5Unpadding]

/-- Witness for C9 at a concrete input: a valid 16-byte key, a 16-byte IV,
and the non-empty 16-aligned buffer of sixteen 3s. -/
theorem claim_C9_witness :
    cbcDecrypt idCipher (List.replicate 16 0) (List.replicate 16 0) PaddingMode.PKCS5 []
      = Outcome.panic "runtime error: index out of range"
    ∧ cbcDecrypt idCipher (List.replicate 16 0) (List.replicate 16 0) PaddingMode.PKCS7 []
      = Outcome.panic "runtime error: index out of range"
    ∧ ecbDecrypt idCipher (List.replicate 16 0) PaddingMode.PKCS5 []
      = Outcome.panic "runtime error: index out of range"
    ∧ ecbDecrypt idCipher (List.replicate 16 0) PaddingMode.PKCS7 []
      = Outcome.panic "runtime error: index out of range"
    ∧ ∃ r, PKCS5Unpadding (List.replicate 16 3) 16 = Outcome.ok r :=
  claim_C9_empty_ciphertext_panics idCipher (List.replicate 16 0) (List.replicate 16 0)
    (List.replicate 16 3) 16 (by decide) (by decide) (by decide) (by decide) (by decide)

/-- C10: with a 24-byte (AES-192) key in PKCS7 mode, Encrypt panics for every
plaintext whose padded length (a multiple of 24) is not a multiple of the
16-byte AES block size, in both the CBC and the ECB variant. -/
theorem claim_C10_aes192_pkcs7_panics (C : BlockCipher) (key iv pt : List Nat)
    (hkey : key.length = 24) (hiv : iv.length = 16)
    (hpad : ¬ (16 ∣ (PKCS5Padding pt 24).length)) :
    cbcEncrypt C key iv PaddingMode.PKCS7 pt = Outcome.panic "crypto/cipher: input not full blocks"
    ∧ ecbEncrypt C key PaddingMode.PKCS7 pt = Outcome.panic "crypto/cipher: input not full blocks" := by
  have hkb : aesValidKeySize key.length = true := by
    rw [hkey]
    decide
  have hmod : ¬ ((padPlainText PaddingMode.PKCS7 key.length pt).length % 16 = 0) := by
    simp only [padPlainText, hkey]
    omega
  constructor
  · simp only [cbcEncrypt, hkb, if_true, hiv, if_pos]
    rw [if_neg hmod]
  · simp only [ecbEncrypt, hkb, if_true, ecbEncrypterCryptBlocks]
    rw [if_neg hmod]

/-- Witness for C10 at a concrete input: the empty plaintext with a 24-byte
key pads to 24 bytes, which is not a multiple of 16. -/
theorem claim_C10_witness :
    cbcEncrypt idCipher (List.replicate 24 0) (List.replicate 16 0) PaddingMode.PKCS7 []
      = Outcome.panic "crypto/cipher: input not full blocks"
    ∧ ecbEncrypt idCipher (List.replicate 24 0) PaddingMode.PKCS7 []
      = Outcome.panic "crypto/cipher: input not full blocks" :=
  claim_C10_aes192_pkcs7_panics idCipher (List.replicate 24 0) (List.replicate 16 0) []
    (by decide) (by decide) (by decide)

/-- C1 counterexample: the round-trip law fails as stated.  In ZERO mode the
plaintext `[0]` encrypts (here under the identity block cipher, an admissible
instance of the abstract AES primitive) to the all-zero block, which decrypts
to the empty plaintext, not `[0]`; and in PKCS7 mode with a valid 24-byte key
the empty plaintext pads to 24 bytes and `CryptBlocks` panics, in both the
CBC and the ECB variant. -/
theorem claim_C1_counterexample :
    cbcEncrypt idCipher (List.replicate 16 0) (List.replicate 16 0) PaddingMode.ZERO [0]
      = Outcome.ok (List.replicate 16 0)
    ∧ cbcDecrypt idCipher (List.replicate 16 0) (List.replicate 16 0) PaddingMode.ZERO
        (List.replicate 16 0) = Outcome.ok []
    ∧ cbcEncrypt idCipher (List.replicate 24 0) (List.replicate 16 0) PaddingMode.PKCS7 []
      = Outcome.panic "crypto/cipher: input not full blocks"
    ∧ ecbEncrypt idCipher (List.replicate 24 0) PaddingMode.PKCS7 []
      = Outcome.panic "crypto/cipher: input not full blocks" := by
  refine ⟨?_, ?_, ?_, ?_⟩ <;> decide

/-- C1 (amended): for every block cipher satisfying the AES contract, every
valid AES key, every 16-byte IV, every padding mode and every plaintext of
length 0..4096, Decrypt(Encrypt(plaintext)) returns exactly the original
plaintext, for both the CBC and the ECB variant — provided that in ZERO mode
the plaintext does not end in a zero byte (Zero unpadding is lossy there),
and that in PKCS7 mode the key is not 24 bytes (that combination panics). -/
theorem claim_C1_roundtrip (C : BlockCipher) (key iv pt : List Nat) (mode : PaddingMode)
    (hC : GoodCipher C)
    (hkey : key.length = 16 ∨ key.length = 24 ∨ key.length = 32)
    (hiv : iv.length = 16)
    (hlen : pt.length ≤ 4096)
    (hzero : mode = PaddingMode.ZERO → pt.getLast? ≠ some 0)
    (h7 : mode = PaddingMode.PKCS7 → key.length ≠ 24) :
    (∃ ct, cbcEncrypt C key iv mode pt = Outcome.ok ct
      ∧ cbcDecrypt C key iv mode ct = Outcome.ok pt)
    ∧ (∃ ct, ecbEncrypt C key mode pt = Outcome.ok ct
      ∧ ecbDecrypt C key mode ct = Outcome.ok pt) := by
  have hkb : aesValidKeySize key.length = true := (aesValidKeySize_iff _).mpr hkey
  have halign := padPlainText_mod16 mode key.length pt hkey h7
  have hunpad := unpadPlainText_padPlainText mode key.length pt hkey hzero
  constructor
  · refine ⟨_, cbcEncrypt_ok_of_aligned C key iv pt mode hkb hiv halign, ?_⟩
    rw [cbcDecrypt_cbcEncrypt C hC key iv pt _ mode hkb hiv halign
      (cbcEncrypt_ok_of_aligned C key iv pt mode hkb hiv halign)]
    exact hunpad
  · refine ⟨_, ecbEncrypt_ok_of_aligned C key pt mode hkb halign, ?_⟩
    rw [ecbDecrypt_ecbEncrypt C hC key pt _ mode hkb halign
      (ecbEncrypt_ok_of_aligned C key pt mode hkb halign)]
    exact hunpad

/-- Witness for C1 at a concrete input: identity cipher, 16-byte key, 16-byte
IV, PKCS5 mode, plaintext `[1, 2, 3]`. -/
theorem claim_C1_witness :
    (∃ ct, cbcEncrypt idCipher (List.replicate 16 1) (List.replicate 16 2)
        PaddingMode.PKCS5 [1, 2, 3] = Outcome.ok ct
      ∧ cbcDecrypt idCipher (List.replicate 16 1) (List.replicate 16 2)
          PaddingMode.PKCS5 ct = Outcome.ok [1, 2, 3])
    ∧ (∃ ct, ecbEncrypt idCipher (List.replicate 16 1) PaddingMode.PKCS5 [1, 2, 3]
        = Outcome.ok ct
      ∧ ecbDecrypt idCipher (List.replicate 16 1) PaddingMode.PKCS5 ct
        = Outcome.ok [1, 2, 3]) :=
  claim_C1_roundtrip idCipher (List.replicate 16 1) (List.replicate 16 2) [1, 2, 3]
    PaddingMode.PKCS5 goodCipher_id (by decide) (by decide) (by decide)
    (by decide) (by decide)

/-- C2: for every plaintext, PKCS5-mode encryption pads to a multiple of the
cipher's 16-byte block size while PKCS7-mode encryption pads to a multiple of
the key length, in both the CBC and the ECB variant: the padded data has the
stated divisibility, and every successfully returned ciphertext has exactly
the padded length. -/
theorem claim_C2_padding_sizes (C : BlockCipher) (key iv pt : List Nat)
    (hC : GoodCipher C)
    (hkey : key.length = 16 ∨ key.length = 24 ∨ key.length = 32)
    (hiv : iv.length = 16) :
    16 ∣ (padPlainText PaddingMode.PKCS5 key.length pt).length
    ∧ key.length ∣ (padPlainText PaddingMode.PKCS7 key.length pt).length
    ∧ (∃ ct, cbcEncrypt C key iv PaddingMode.PKCS5 pt = Outcome.ok ct
        ∧ ct.length = (padPlainText PaddingMode.PKCS5 key.length pt).length)
    ∧ (∀ ct, cbcEncrypt C key iv PaddingMode.PKCS7 pt = Outcome.ok ct →
        ct.length = (padPlainText PaddingMode.PKCS7 key.length pt).length)
    ∧ (∃ ct, ecbEncrypt C key PaddingMode.PKCS5 pt = Outcome.ok ct
        ∧ ct.length = (padPlainText PaddingMode.PKCS5 key.length pt).length)
    ∧ (∀ ct, ecbEncrypt C key PaddingMode.PKCS7 pt = Outcome.ok ct →
        ct.length = (padPlainText PaddingMode.PKCS7 key.length pt).length) := by
  have hkb : aesValidKeySize key.length = true := (aesValidKeySize_iff _).mpr hkey
  have halign5 : (padPlainText PaddingMode.PKCS5 key.length pt).length % 16 = 0 :=
    padPlainText_mod16 PaddingMode.PKCS5 key.length pt hkey
      (fun h => absurd h (by decide))
  refine ⟨?_, ?_, ?_, ?_, ?_, ?_⟩
  · simp only [padPlainText]
    exact PKCS5Padding_dvd pt 16 (by omega)
  · simp only [padPlainText]
    exact PKCS5Padding_dvd pt key.length (by omega)
  · exact ⟨_, cbcEncrypt_ok_of_aligned C key iv pt PaddingMode.PKCS5 hkb hiv halign5,
      cbcEncrypt_ok_length C hC key iv pt _ PaddingMode.PKCS5 hkb hiv
        (cbcEncrypt_ok_of_aligned C key iv pt PaddingMode.PKCS5 hkb hiv halign5)⟩
  · intro ct hct
    exact cbcEncrypt_ok_length C hC key iv pt ct PaddingMode.PKCS7 hkb hiv hct
  · exact ⟨_, ecbEncrypt_ok_of_aligned C key pt PaddingMode.PKCS5 hkb halign5,
      ecbEncrypt_ok_length C hC key pt _ PaddingMode.PKCS5 hkb
        (ecbEncrypt_ok_of_aligned C key pt PaddingMode.PKCS5 hkb halign5)⟩
  · intro ct hct
    exact ecbEncrypt_ok_length C hC key pt ct PaddingMode.PKCS7 hkb hct

/-- Witness for C2 at a concrete input: identity cipher, 32-byte key, 16-byte
IV, plaintext `[7]`. -/
theorem claim_C2_witness :
    16 ∣ (padPlainText PaddingMode.PKCS5 (List.replicate 32 9).length [7]).length
    ∧ (List.replicate 32 9).length
      ∣ (padPlainText PaddingMode.PKCS7 (List.replicate 32 9).length [7]).length
    ∧ (∃ ct, cbcEncrypt idCipher (List.replicate 32 9) (List.replicate 16 0)
          PaddingMode.PKCS5 [7] = Outcome.ok ct
        ∧ ct.length = (padPlainText PaddingMode.PKCS5 (List.replicate 32 9).length [7]).length)
    ∧ (∀ ct, cbcEncrypt idCipher (List.replicate 32 9) (List.replicate 16 0)
          PaddingMode.PKCS7 [7] = Outcome.ok ct →
        ct.length = (padPlainText PaddingMode.PKCS7 (List.replicate 32 9).length [7]).length)
    ∧ (∃ ct, ecbEncrypt idCipher (List.replicate 32 9) PaddingMode.PKCS5 [7]
        = Outcome.ok ct
        ∧ ct.length = (padPlainText PaddingMode.PKCS5 (List.replicate 32 9).length [7]).length)
    ∧ (∀ ct, ecbEncrypt idCipher (List.replicate 32 9) PaddingMode.PKCS7 [7]
        = Outcome.ok ct →
        ct.length = (padPlainText PaddingMode.PKCS7 (List.replicate 32 9).length [7]).length) :=
  claim_C2_padding_sizes idCipher (List.replicate 32 9) (List.replicate 16 0) [7]
    goodCipher_id (by decide) (by decide)

/-- C5: for every CBC Encrypt or Decrypt call, an invalid AES key length
yields the key-setup error and a valid key with an IV of the wrong length
yields the IV-length error — in both cases before any cryptographic work, so
the result does not depend on the block cipher or on the data; with a valid
key and IV, a returned ciphertext has exactly the padded plaintext's
length. -/
theorem claim_C5_cbc_errors (C Cp : BlockCipher) (key iv pt ptp ct ctp : List Nat)
    (mode : PaddingMode) (hC : GoodCipher C) :
    (aesValidKeySize key.length = false →
      cbcEncrypt C key iv mode pt = Outcome.err "crypto/aes: invalid key size"
      ∧ cbcDecrypt C key iv mode ct = Outcome.err "crypto/aes: invalid key size")
    ∧ (aesValidKeySize key.length = true → iv.length ≠ 16 →
      cbcEncrypt C key iv mode pt = Outcome.err "IV length must equal block size"
      ∧ cbcDecrypt C key iv mode ct = Outcome.err "IV length must equal block size"
      ∧ cbcEncrypt C key iv mode pt = cbcEncrypt Cp key iv mode ptp
      ∧ cbcDecrypt C key iv mode ct = cbcDecrypt Cp key iv mode ctp)
    ∧ (aesValidKeySize key.length = true → iv.length = 16 →
      ∀ out, cbcEncrypt C key iv mode pt = Outcome.ok out →
        out.length = (padPlainText mode key.length pt).length) := by
  refine ⟨?_, ?_, ?_⟩
  · intro hbad
    constructor <;> simp [cbcEncrypt, cbcDecrypt, hbad]
  · intro hkb hiv
    refine ⟨?_, ?_, ?_, ?_⟩ <;> simp [cbcEncrypt, cbcDecrypt, hkb, hiv]
  · intro hkb hiv out hout
    exact cbcEncrypt_ok_length C hC key iv pt out mode hkb hiv hout

/-- Witness for C5 at concrete inputs: a 1-byte key triggers the key-setup
error; a valid 16-byte key with a 1-byte IV triggers the IV-length error; a
valid key and IV give a ciphertext of the padded length. -/
theorem claim_C5_witness :
    cbcEncrypt idCipher [1] (List.replicate 16 0) PaddingMode.PKCS5 [7]
      = Outcome.err "crypto/aes: invalid key size"
    ∧ cbcDecrypt idCipher (List.replicate 16 0) [2] PaddingMode.PKCS5 [7]
      = Outcome.err "IV length must equal block size" := by
  have h1 := claim_C5_cbc_errors idCipher idCipher [1] (List.replicate 16 0)
    [7] [7] [7] [7] PaddingMode.PKCS5 goodCipher_id
  have h2 := claim_C5_cbc_errors idCipher idCipher (List.replicate 16 0) [2]
    [7] [7] [7] [7] PaddingMode.PKCS5 goodCipher_id
  exact ⟨(h1.1 (by decide)).1, (h2.2.1 (by decide) (by decide)).2.1⟩

/-- C8: the hand-written ECB adapter panics on any input whose length is not
a multiple of the 16-byte block size, before doing any cryptographic work,
for both the encrypter and the decrypter; on aligned input (with a
sufficiently large destination) it processes each 16-byte block independently
in sequence: the i-th output block is the cipher applied to the i-th input
block. -/
theorem claim_C8_ecb_adapter (C : BlockCipher) (dstLen n : Nat) (src : List Nat)
    (hC : GoodCipher C) :
    (¬ (16 ∣ src.length) →
      ecbEncrypterCryptBlocks C dstLen src
        = Outcome.panic "crypto/cipher: input not full blocks"
      ∧ ecbDecrypterCryptBlocks C dstLen src
        = Outcome.panic "crypto/cipher: input not full blocks")
    ∧ (src.length = 16 * n → src.length ≤ dstLen →
      ecbEncrypterCryptBlocks C dstLen src = Outcome.ok (ecbBlocks C.enc n src)
      ∧ ecbDecrypterCryptBlocks C dstLen src = Outcome.ok (ecbBlocks C.dec n src)
      ∧ ∀ i, i < n →
        ((ecbBlocks C.enc n src).drop (16 * i)).take 16
          = C.enc ((src.drop (16 * i)).take 16)
        ∧ ((ecbBlocks C.dec n src).drop (16 * i)).take 16
          = C.dec ((src.drop (16 * i)).take 16)) := by
  constructor
  · intro hnd
    have hmod : ¬ (src.length % 16 = 0) := by omega
    constructor <;>
      simp only [ecbEncrypterCryptBlocks, ecbDecrypterCryptBlocks] <;>
      rw [if_neg hmod]
  · intro hlen hdst
    have hmod : src.length % 16 = 0 := by omega
    have hdiv : src.length / 16 = n := by omega
    refine ⟨?_, ?_, ?_⟩
    · simp only [ecbEncrypterCryptBlocks, hmod, if_pos]
      rw [if_neg (by omega), hdiv]
    · simp only [ecbDecrypterCryptBlocks, hmod, if_pos]
      rw [if_neg (by omega), hdiv]
    · intro i hi
      exact ⟨ecbBlocks_block C.enc hC.1 n src i hlen hi,
        ecbBlocks_block C.dec hC.2.1 n src i hlen hi⟩

/-- Witness for C8 at concrete inputs: a 3-byte source panics; a 16-byte
source with a 16-byte destination is encrypted as one independent block. -/
theorem claim_C8_witness :
    ecbEncrypterCryptBlocks idCipher 16 [1, 2, 3]
      = Outcome.panic "crypto/cipher: input not full blocks"
    ∧ ecbEncrypterCryptBlocks idCipher 16 (List.replicate 16 5)
      = Outcome.ok (ecbBlocks idCipher.enc 1 (List.replicate 16 5)) := by
  have h1 := claim_C8_ecb_adapter idCipher 16 1 [1, 2, 3] goodCipher_id
  have h2 := claim_C8_ecb_adapter idCipher 16 1 (List.replicate 16 5) goodCipher_id
  exact ⟨(h1.1 (by decide)).1, (h2.2 (by decide) (by decide)).1⟩

/-- C6 counterexample: when the PEM block parses but the key is not an RSA
private key, `NewPrivateKeyFromPemBlock` does not return a `KeyTypeMismatch`
error — the unchecked type assertion `pk.(*rsa.PrivateKey)` panics (here with
a PKCS#8 block parsing to a non-RSA key). -/
theorem claim_C6_counterexample :
    NewPrivateKeyFromPemBlock
      ⟨fun _ => some ⟨"PRIVATE KEY", []⟩,
       fun _ => Except.error "unused",
       fun _ => Except.ok (ParsedKey.nonRSA "ecdsa")⟩ []
      = Outcome.panic "interface conversion: interface is not *rsa.PrivateKey" := by
  rfl

/-- C6 (amended): private key loading returns the error "no PEM data is
found" (the `UnrecognizedKeyFormat` case) when no PEM block can be decoded; a
PEM header of "RSA PRIVATE KEY" is parsed as PKCS#1 and "PRIVATE KEY" as
PKCS#8, with parser errors propagated; but when the block parses to a key
that is not an RSA private key the function panics on the type assertion
instead of returning a `KeyTypeMismatch` error. -/
theorem claim_C6_pem_loading (env : PemEnv) (input : List Nat) (blk : PemBlock)
    (k : RSAKey) (e d : String) :
    (env.pemDecode input = none →
      NewPrivateKeyFromPemBlock env input = Outcome.err "no PEM data is found")
    ∧ (env.pemDecode input = some blk → blk.type = "RSA PRIVATE KEY" →
      (env.parsePKCS1 blk.bytes = Except.ok k →
        NewPrivateKeyFromPemBlock env input = Outcome.ok k)
      ∧ (env.parsePKCS1 blk.bytes = Except.error e →
        NewPrivateKeyFromPemBlock env input = Outcome.err e))
    ∧ (env.pemDecode input = some blk → blk.type = "PRIVATE KEY" →
      (env.parsePKCS8 blk.bytes = Except.ok (ParsedKey.rsa k) →
        NewPrivateKeyFromPemBlock env input = Outcome.ok k)
      ∧ (env.parsePKCS8 blk.bytes = Except.error e →
        NewPrivateKeyFromPemBlock env input = Outcome.err e)
      ∧ (env.parsePKCS8 blk.bytes = Except.ok (ParsedKey.nonRSA d) →
        NewPrivateKeyFromPemBlock env input
          = Outcome.panic "interface conversion: interface is not *rsa.PrivateKey")) := by
  refine ⟨?_, ?_, ?_⟩
  · intro hdec
    simp [NewPrivateKeyFromPemBlock, hdec]
  · intro hdec htype
    constructor <;> intro hp <;> simp [NewPrivateKeyFromPemBlock, hdec, htype, hp]
  · intro hdec htype
    have hne : blk.type ≠ "RSA PRIVATE KEY" := by
      rw [htype]
      decide
    refine ⟨?_, ?_, ?_⟩ <;> intro hp <;>
      simp [NewPrivateKeyFromPemBlock, hdec, htype, hne, hp]

/-- Witness for C6 at concrete inputs: a decoder finding no PEM block yields
the "no PEM data is found" error; an "RSA PRIVATE KEY" block is parsed with
the PKCS#1 parser and its key is returned. -/
theorem claim_C6_witness :
    NewPrivateKeyFromPemBlock
      ⟨fun _ => none, fun _ => Except.error "x", fun _ => Except.error "x"⟩ []
      = Outcome.err "no PEM data is found"
    ∧ NewPrivateKeyFromPemBlock
      ⟨fun _ => some ⟨"RSA PRIVATE KEY", [1]⟩, fun _ => Except.ok ⟨5⟩,
       fun _ => Except.error "x"⟩ []
      = Outcome.ok ⟨5⟩ := by
  have h1 := claim_C6_pem_loading
    ⟨fun _ => none, fun _ => Except.error "x", fun _ => Except.error "x"⟩ []
    ⟨"", []⟩ ⟨5⟩ "e" "d"
  have h2 := claim_C6_pem_loading
    ⟨fun _ => some ⟨"RSA PRIVATE KEY", [1]⟩, fun _ => Except.ok ⟨5⟩,
     fun _ => Except.error "x"⟩ []
    ⟨"RSA PRIVATE KEY", [1]⟩ ⟨5⟩ "e" "d"
  exact ⟨h1.1 rfl, (h2.2.1 rfl rfl).1 rfl⟩

/-- C7: Sign hashes the data with the requested digest and then signs the
digest with PKCS#1 v1.5 (its result depends on the data only through the
digest); both Sign and Verify return the "requested hash function
unavailable" error — they do not panic — when the digest algorithm is
unavailable; and Verify returns the `rsa.ErrVerification` error — it does not
panic — when the signature does not match. -/
theorem claim_C7_sign_verify (env : RSAEnv) (pk : RSAKey) (hash : HashAlg)
    (data data2 signature sig : List Nat) :
    (hash.available = false →
      privateKeySign env pk hash data
        = Outcome.err ("crypto: requested hash function (" ++ hash.name ++ ") is unavailable")
      ∧ publicKeyVerify env pk hash data signature
        = Outcome.err ("crypto: requested hash function (" ++ hash.name ++ ") is unavailable"))
    ∧ (hash.available = true →
      (env.signPKCS1v15 pk (hash.digest data) = Except.ok sig →
        privateKeySign env pk hash data = Outcome.ok sig)
      ∧ (hash.digest data = hash.digest data2 →
        privateKeySign env pk hash data = privateKeySign env pk hash data2)
      ∧ (env.verifyPKCS1v15 pk (hash.digest data) signature = false →
        publicKeyVerify env pk hash data signature
          = Outcome.err "crypto/rsa: verification error")
      ∧ (env.verifyPKCS1v15 pk (hash.digest data) signature = true →
        publicKeyVerify env pk hash data signature = Outcome.ok ())) := by
  refine ⟨?_, ?_⟩
  · intro hav
    constructor <;> simp [privateKeySign, publicKeyVerify, hav]
  · intro hav
    refine ⟨?_, ?_, ?_, ?_⟩
    · intro hs
      simp [privateKeySign, hav, hs]
    · intro hd
      simp [privateKeySign, hav, hd]
    · intro hv
      simp [publicKeyVerify, hav, hv]
    · intro hv
      simp [publicKeyVerify, hav, hv]

/-- Witness for C7 at concrete inputs: an unavailable digest makes Sign
return the unavailability error; with an available digest, a signing
primitive that echoes the digest makes Sign return it, and a verification
primitive that rejects makes Verify return the verification error. -/
theorem claim_C7_witness :
    privateKeySign ⟨fun _ d => Except.ok d, fun _ _ _ => false⟩ ⟨1⟩
      ⟨false, "MD4", fun d => d⟩ [1]
      = Outcome.err ("crypto: requested hash function (" ++ "MD4" ++ ") is unavailable")
    ∧ privateKeySign ⟨fun _ d => Except.ok d, fun _ _ _ => false⟩ ⟨1⟩
      ⟨true, "SHA-256", fun d => d⟩ [1, 2]
      = Outcome.ok [1, 2]
    ∧ publicKeyVerify ⟨fun _ d => Except.ok d, fun _ _ _ => false⟩ ⟨1⟩
      ⟨true, "SHA-256", fun d => d⟩ [1, 2] [9]
      = Outcome.err "crypto/rsa: verification error" := by
  have h1 := claim_C7_sign_verify ⟨fun _ d => Except.ok d, fun _ _ _ => false⟩ ⟨1⟩
    ⟨false, "MD4", fun d => d⟩ [1] [1] [9] [1]
  have h2 := claim_C7_sign_verify ⟨fun _ d => Except.ok d, fun _ _ _ => false⟩ ⟨1⟩
    ⟨true, "SHA-256", fun d => d⟩ [1, 2] [1, 2] [9] [1, 2]
  exact ⟨(h1.1 rfl).1, (h2.2 rfl).1 rfl, (h2.2 rfl).2.2.1 rfl⟩

end GoChat
